import Mathlib

/-!
Shallow embedding of the WOOT replica engine of `src/src/woot.rs` (toy-woot).

Machine integers (`i64`, `usize`) are modelled as `Int` and `Nat`; the two
unchecked `usize` subtractions that can panic in the source are modelled as
explicit error branches (`underflowGenIns`, `underflowSubseq`).  The unbounded
recursion of `integrate_ins` is modelled with explicit fuel; running out of
fuel is the distinct error `fuelExhausted`, so "the call terminates" is
"some fuel gives a non-`fuelExhausted` result".
-/

set_option autoImplicit false

namespace Woot

/-- `ID` from woot.rs: `ns` is the site identifier, `ng` a logical clock
(both `i64` in the source, modelled as `Int`). -/
structure ID where
  ns : Int
  ng : Int
deriving DecidableEq, Repr

/-- `ID::less_than_or_equal` exactly as written in the source:
`(self.ns <= other.ns) || (self.ns == other.ns && self.ng <= other.ng)`. -/
def ID.less_than_or_equal (a b : ID) : Bool :=
  (a.ns ≤ b.ns) || (a.ns == b.ns && a.ng ≤ b.ng)

/-- `ID::less_than` from the source:
`(self.ns < other.ns) || (self.ns == other.ns && self.ng < other.ng)`. -/
def ID.less_than (a b : ID) : Bool :=
  (a.ns < b.ns) || (a.ns == b.ns && a.ng < b.ng)

/-- The weak lexicographic comparison on `(ns, ng)` in the spec's words:
`(a.ns < b.ns) OR (a.ns == b.ns AND a.ng ≤ b.ng)` (spec §4.1/§9).  Declared
only to be compared against the source's `ID.less_than_or_equal`. -/
def ID.lexLeqSpec (a b : ID) : Bool :=
  (a.ns < b.ns) || (a.ns == b.ns && a.ng ≤ b.ng)

/-- `Character` from woot.rs (`c` is the glyph string; `prev_id`/`next_id`
are the origin neighbours, absent only on the sentinels). -/
structure Character where
  id : ID
  c : String
  visible : Bool
  prev_id : Option ID
  next_id : Option ID
deriving DecidableEq, Repr

/-- `i64::MIN`. -/
def i64_min : Int := -(2 ^ 63)

/-- `i64::MAX`. -/
def i64_max : Int := 2 ^ 63 - 1

/-- `CB_ID` from the source: `(i64::MIN, 0)`. -/
def CB_ID : ID := ⟨i64_min, 0⟩

/-- `CE_ID` from the source: note the source sets `ng = 1`, not `0`. -/
def CE_ID : ID := ⟨i64_max, 1⟩

/-- The beginning sentinel character `CB`. -/
def CB : Character := ⟨CB_ID, "", false, none, none⟩

/-- The ending sentinel character `CE`. -/
def CE : Character := ⟨CE_ID, "", false, none, none⟩

/-- `Sequence` from woot.rs: a linked list of characters, modelled as `List`. -/
structure Sequence where
  chars : List Character
deriving DecidableEq, Repr

/-- `SubSequence` from woot.rs. -/
structure SubSequence where
  chars : List Character
deriving DecidableEq, Repr

/-- Error kinds of the engine.  The source uses `anyhow` error strings plus
two possible arithmetic-underflow panics; each program point gets its own
constructor here. -/
inductive WErr where
  /-- `generate_del` / `integrate_del`: target not found. -/
  | targetNotFound
  /-- `integrate_ins`: `pos(cn)` absent (`"cannot find …"`). -/
  | cannotFindCn
  /-- `Sequence::subseq`: an endpoint is absent (`"not found"`). -/
  | notFound
  /-- `Sequence::insert2`: physical index out of bounds. -/
  | outOfBounds
  /-- `Site::execute`: an `INS` operation without `arg1`/`arg2`. -/
  | noArg
  /-- `Site::execute`: unknown operation tag. -/
  | unknownOperation
  /-- `integrate_ins`: a subsequence element without origin identifiers
  (`"should not cb or ce at here"`). -/
  | sentinelInSubseq
  /-- `generate_ins` with `p = 0`: the `usize` expression `p - 1` underflows
  (panic in checked arithmetic). -/
  | underflowGenIns
  /-- `Sequence::subseq` with `pos d ≤ pos c`: the `usize` subtraction in the
  second `split_off` underflows (panic in checked arithmetic). -/
  | underflowSubseq
  /-- Fuel of the embedding ran out (models non-termination of the source's
  unbounded recursion). -/
  | fuelExhausted
deriving DecidableEq, Repr

/-- First index whose character's `id` equals `i` (Rust
`iter().position(|char| *c == *char)`; `Character` equality is `id` equality). -/
def posList (i : ID) : List Character → Option Nat
  | [] => none
  | x :: rest => if x.id = i then some 0 else (posList i rest).map (· + 1)

/-- `Sequence::pos`. -/
def Sequence.pos (s : Sequence) (c : Character) : Option Nat :=
  posList c.id s.chars

/-- `Sequence::pos2` (lookup by bare identifier). -/
def Sequence.pos2 (s : Sequence) (i : ID) : Option Nat :=
  posList i s.chars

/-- `Sequence::text`: concatenation of the glyphs of the visible characters. -/
def Sequence.text (s : Sequence) : String :=
  s.chars.foldl (fun acc ch => if ch.visible then acc ++ ch.c else acc) ""

/-- `Sequence::insert2`: place `ch` at physical index `p` (error when `p`
is not the index of an existing element, i.e. `p ≥ length`). -/
def Sequence.insert2 (s : Sequence) (ch : Character) (p : Nat) : Except WErr Sequence :=
  if p < s.chars.length then
    Except.ok ⟨s.chars.take p ++ ch :: s.chars.drop p⟩
  else
    Except.error WErr.outOfBounds

/-- `Sequence::subseq`: the part strictly between `c` and `d`.  The source
computes `split_off(left+1)` then `split_off(right - chars.len())`; when
`right < left + 1` that `usize` subtraction underflows (a panic), modelled by
`underflowSubseq`. -/
def Sequence.subseq (s : Sequence) (c d : Character) : Except WErr SubSequence :=
  match s.pos c with
  | none => Except.error WErr.notFound
  | some left =>
    match s.pos d with
    | none => Except.error WErr.notFound
    | some right =>
      if right < left + 1 then
        Except.error WErr.underflowSubseq
      else
        Except.ok ⟨(s.chars.drop (left + 1)).take (right - (left + 1))⟩

/-- Loop body of `Sequence::ith_visible`: walk the list keeping a count of
visible characters; return the element at which the count reaches `p`. -/
def ithVisibleGo (p : Nat) : List Character → Nat → Option Character
  | [], _ => none
  | ch :: rest, count =>
    let count2 := if ch.visible then count + 1 else count
    if count2 == p then some ch else ithVisibleGo p rest count2

/-- `Sequence::ith_visible`: 1-based index over visible characters;
`p = 0` returns `none`. -/
def Sequence.ith_visible (s : Sequence) (p : Nat) : Option Character :=
  if p == 0 then none else ithVisibleGo p s.chars 0

/-- `Operation` from woot.rs. -/
structure Operation where
  op : String
  c : Character
  arg1 : Option Character
  arg2 : Option Character
deriving DecidableEq, Repr

/-- `Site` from woot.rs. -/
structure Site where
  id : Int
  clock : Int
  seq : Sequence
deriving DecidableEq, Repr

/-- `new_sequence`: the source ignores the string argument (the seeding code
is commented out) and returns `[CB, CE]`. -/
def new_sequence (_site_id : Int) (_s : String) : Sequence :=
  ⟨[CB, CE]⟩

/-- `new_site`. -/
def new_site (id : Int) (clock : Int) : Site :=
  ⟨id, clock, new_sequence id ""⟩

/-- Loop of `Site::integrate_del`: flip `visible` of the first character whose
`id` matches; `none` when no character matches. -/
def markDeleted (i : ID) : List Character → Option (List Character)
  | [] => none
  | ch :: rest =>
    if ch.id = i then some ({ ch with visible := false } :: rest)
    else (markDeleted i rest).map (ch :: ·)

/-- `Site::integrate_del`. -/
def Site.integrate_del (st : Site) (c : Character) : Except WErr (Site × Operation) :=
  match markDeleted c.id st.seq.chars with
  | none => Except.error WErr.targetNotFound
  | some chars2 =>
    Except.ok ({ st with seq := ⟨chars2⟩ }, ⟨"DEL", c, none, none⟩)

/-- `Site::generate_del`. -/
def Site.generate_del (st : Site) (p : Nat) : Except WErr (Site × Operation) :=
  match st.seq.ith_visible p with
  | none => Except.error WErr.targetNotFound
  | some c => st.integrate_del c

/-- The filtering loop of `integrate_ins` that builds the interior of the
candidate list `L`: keep `sc` iff
`sc.prev_id ≤ cp.id && cn.id ≤ sc.next_id` (source comparator); `none` when
some subsequence element lacks `prev_id`/`next_id` (the source errors there). -/
def buildL (cpid cnid : ID) : List Character → Option (List Character)
  | [] => some []
  | sc :: rest =>
    match sc.prev_id, sc.next_id with
    | some pid, some nid =>
      (buildL cpid cnid rest).map (fun l =>
        if pid.less_than_or_equal cpid && cnid.less_than_or_equal nid then sc :: l else l)
    | _, _ => none

/-- The walk of `integrate_ins`: starting at `L[1]`, advance while the
candidate's id is `less_than` the new character's id, never moving past the
final element; return the pair `(L[i-1], L[i])` where the walk stops. -/
def walkL (c : Character) : Character → List Character → Character × Character
  | prev, [] => (prev, prev)
  | prev, [last] => (prev, last)
  | prev, cur :: next2 :: rest =>
    if cur.id.less_than c.id then walkL c cur (next2 :: rest) else (prev, cur)

/-- `Site::integrate_ins` with explicit fuel for the unbounded recursion. -/
def Site.integrate_ins : Nat → Site → Character → Character → Character →
    Except WErr (Site × Operation)
  | 0, _, _, _, _ => Except.error WErr.fuelExhausted
  | fuel + 1, st, c, cp, cn =>
    match st.seq.pos cn with
    | none => Except.error WErr.cannotFindCn
    | some p =>
      match st.seq.subseq cp cn with
      | Except.error e => Except.error e
      | Except.ok sub =>
        if sub.chars.length == 0 then
          match st.seq.insert2 c p with
          | Except.error e => Except.error e
          | Except.ok seq2 =>
            Except.ok ({ st with seq := seq2 }, ⟨"INS", c, some cp, some cn⟩)
        else
          match buildL cp.id cn.id sub.chars with
          | none => Except.error WErr.sentinelInSubseq
          | some lmid =>
            let pair := walkL c cp (lmid ++ [cn])
            Site.integrate_ins fuel st c pair.1 pair.2

/-- `Site::generate_ins`: increments the clock, then computes `p - 1` on a
`usize`, which underflows (panics) when `p = 0`. -/
def Site.generate_ins (fuel : Nat) (st : Site) (p : Nat) (ch : String) :
    Except WErr (Site × Operation) :=
  let st1 : Site := { st with clock := st.clock + 1 }
  if p == 0 then Except.error WErr.underflowGenIns
  else
    let cp := (st1.seq.ith_visible (p - 1)).getD CB
    let cn := (st1.seq.ith_visible p).getD CE
    let c : Character :=
      ⟨⟨st1.id, st1.clock⟩, ch, true, some cp.id, some cn.id⟩
    Site.integrate_ins fuel st1 c cp cn

/-- `Site::execute`: dispatch on the operation tag. -/
def Site.execute (fuel : Nat) (st : Site) (operation : Operation) :
    Except WErr (Site × Operation) :=
  if operation.op == "INS" then
    match operation.arg1 with
    | none => Except.error WErr.noArg
    | some cp =>
      match operation.arg2 with
      | none => Except.error WErr.noArg
      | some cn => Site.integrate_ins fuel st operation.c cp cn
  else if operation.op == "DEL" then
    st.integrate_del operation.c
  else
    Except.error WErr.unknownOperation

/-- Integrate a list of operations in order at one site; any failure aborts. -/
def runOps (fuel : Nat) : Site → List Operation → Except WErr Site
  | st, [] => Except.ok st
  | st, op :: rest =>
    match Site.execute fuel st op with
    | Except.error e => Except.error e
    | Except.ok (st2, _) => runOps fuel st2 rest

/-- Project the text of a successful run. -/
def textOf : Except WErr Site → Option String
  | Except.ok st => some st.seq.text
  | Except.error _ => none

/-- Project the clock of a successful generator call. -/
def clockOf : Except WErr (Site × Operation) → Option Int
  | Except.ok r => some r.1.clock
  | Except.error _ => none

/-! ### Concrete characters and operations used in the counterexamples -/

/-- Character `a`, inserted by site 1 between the sentinels. -/
def chA : Character := ⟨⟨1, 1⟩, "a", true, some CB_ID, some CE_ID⟩

/-- Character `b`, inserted by site 1 between `CB` and `a`. -/
def chB : Character := ⟨⟨1, 2⟩, "b", true, some CB_ID, some chA.id⟩

/-- Character `c`, inserted by site 2 between `CB` and `a`. -/
def chC : Character := ⟨⟨2, 1⟩, "c", true, some CB_ID, some chA.id⟩

/-- Character `d`, inserted by site 2 between `CB` and `b`. -/
def chD : Character := ⟨⟨2, 2⟩, "d", true, some CB_ID, some chB.id⟩

/-- The `INS` operation carrying `a`. -/
def opA : Operation := ⟨"INS", chA, some CB, some CE⟩

/-- The `INS` operation carrying `b`. -/
def opB : Operation := ⟨"INS", chB, some CB, some chA⟩

/-- The `INS` operation carrying `c`. -/
def opC : Operation := ⟨"INS", chC, some CB, some chA⟩

/-- The `INS` operation carrying `d`. -/
def opD : Operation := ⟨"INS", chD, some CB, some chB⟩

/-- The single-site scenario of spec §8:
`generate_ins(1,"a"); generate_ins(2,"b"); generate_ins(1,"b");
generate_ins(3,"c")` starting from a fresh site with clock 0. -/
def genChain : Except WErr Site :=
  match Site.generate_ins 20 (new_site 1 0) 1 "a" with
  | Except.error e => Except.error e
  | Except.ok (s1, _) =>
  match Site.generate_ins 20 s1 2 "b" with
  | Except.error e => Except.error e
  | Except.ok (s2, _) =>
  match Site.generate_ins 20 s2 1 "b" with
  | Except.error e => Except.error e
  | Except.ok (s3, _) =>
  match Site.generate_ins 20 s3 3 "c" with
  | Except.error e => Except.error e
  | Except.ok (s4, _) => Except.ok s4

/-- A character whose origin identifiers name sites `5` and `6`; every
admission test `prev_id ≤ cp.id && cn.id ≤ next_id` with `cp = CB`, `cn = CE`
rejects it. -/
def xBad : Character := ⟨⟨3, 1⟩, "x", true, some ⟨5, 0⟩, some ⟨6, 0⟩⟩

/-- A sequence holding `xBad` between the sentinels. -/
def stBad : Site := ⟨9, 0, ⟨[CB, xBad, CE]⟩⟩

/-- A new character to integrate between the sentinels of `stBad`. -/
def cNew : Character := ⟨⟨1, 1⟩, "y", true, some CB_ID, some CE_ID⟩

/-- `integrate_ins` loops forever on these arguments: every fuel bound is
exhausted. -/
def loopsForever (st : Site) (c cp cn : Character) : Prop :=
  ∀ fuel, Site.integrate_ins fuel st c cp cn = Except.error WErr.fuelExhausted

/-- The admission test of `integrate_ins` for one between-slice character:
it carries origin identifiers and `prev_id ≤ cp.id && cn.id ≤ next_id`
under the source comparator. -/
def admits (cpid cnid : ID) (sc : Character) : Bool :=
  match sc.prev_id, sc.next_id with
  | some pid, some nid => pid.less_than_or_equal cpid && cnid.less_than_or_equal nid
  | _, _ => false

/-- A site whose sequence is `[CB, a, CE]` with clock 3, used to witness the
clock behaviour of the generators. -/
def stW : Site := ⟨1, 3, ⟨[CB, chA, CE]⟩⟩

/-! ### Helper lemmas -/

theorem subseq_ne_underflowGenIns (s : Sequence) (c d : Character) :
    s.subseq c d ≠ Except.error WErr.underflowGenIns := by
  unfold Sequence.subseq
  split
  · simp
  · split
    · simp
    · split <;> simp

theorem insert2_ne_underflowGenIns (s : Sequence) (ch : Character) (p : Nat) :
    s.insert2 ch p ≠ Except.error WErr.underflowGenIns := by
  unfold Sequence.insert2
  split <;> simp

/-- `integrate_ins` can fail in several ways but never with the
`generate_ins` underflow panic: that program point is not on its paths. -/
theorem integrate_ins_ne_underflowGenIns :
    ∀ (fuel : Nat) (st : Site) (c cp cn : Character),
      Site.integrate_ins fuel st c cp cn ≠ Except.error WErr.underflowGenIns := by
  intro fuel
  induction fuel with
  | zero => intro st c cp cn; simp [Site.integrate_ins]
  | succ n ih =>
    intro st c cp cn
    rw [Site.integrate_ins]
    split
    · simp
    · split
      next e he =>
        intro hcon
        injection hcon with h2
        rw [h2] at he
        exact subseq_ne_underflowGenIns _ _ _ he
      next sub hs =>
        split
        · split
          next e2 he2 =>
            intro hcon
            injection hcon with h2
            rw [h2] at he2
            exact insert2_ne_underflowGenIns _ _ _ he2
          next seq2 hs2 => simp
        · split
          · simp
          · exact ih _ _ _ _

/-- A successful `integrate_ins` only rebuilds the sequence: the clock of the
resulting site equals the clock of the input site. -/
theorem integrate_ins_clock_eq :
    ∀ (fuel : Nat) (st : Site) (c cp cn : Character) (r : Site × Operation),
      Site.integrate_ins fuel st c cp cn = Except.ok r → r.1.clock = st.clock := by
  intro fuel
  induction fuel with
  | zero => intro st c cp cn r h; exact absurd h (by simp [Site.integrate_ins])
  | succ n ih =>
    intro st c cp cn r
    rw [Site.integrate_ins]
    split
    · intro h; exact absurd h (by simp)
    · split
      · intro h; exact absurd h (by simp)
      · split
        · split
          · intro h; exact absurd h (by simp)
          · intro h
            injection h with h2
            subst h2
            rfl
        · split
          · intro h; exact absurd h (by simp)
          · exact ih _ _ _ _ _

/-- A successful `integrate_del` leaves the clock unchanged. -/
theorem integrate_del_clock_eq (st : Site) (c : Character) (r : Site × Operation)
    (h : st.integrate_del c = Except.ok r) : r.1.clock = st.clock := by
  unfold Site.integrate_del at h
  split at h
  · exact absurd h (by simp)
  · injection h with h2
    subst h2
    rfl

/-- A found position decomposes the list around the first matching element. -/
theorem posList_decomp (x : ID) :
    ∀ (l : List Character) (m : Nat), posList x l = some m →
      ∃ A b B, l = A ++ b :: B ∧ A.length = m ∧ b.id = x := by
  intro l
  induction l with
  | nil => intro m h; exact absurd h (by simp [posList])
  | cons a rest ih =>
    intro m h
    by_cases ha : a.id = x
    · refine ⟨[], a, rest, rfl, ?_, ha⟩
      simp only [posList, ha, if_true, Option.some.injEq] at h
      simp only [List.length_nil]
      omega
    · simp only [posList, ha, if_false, Option.map_eq_some'] at h
      obtain ⟨k, hk, hm⟩ := h
      obtain ⟨A, b, B, hl, hA, hb⟩ := ih k hk
      exact ⟨a :: A, b, B, by rw [hl, List.cons_append], by simp [hA, hm], hb⟩

theorem posList_lt_length (x : ID) (l : List Character) (m : Nat)
    (h : posList x l = some m) : m < l.length := by
  obtain ⟨A, b, B, hl, hA, _⟩ := posList_decomp x l m h
  rw [hl]
  simp only [List.length_append, List.length_cons]
  omega

/-- When the target id occurs at a known split point and not before it,
`posList` returns exactly that index. -/
theorem posList_append (x : ID) (b : Character) (hb : b.id = x) :
    ∀ (X : List Character), (∀ a ∈ X, a.id ≠ x) →
      ∀ (Z : List Character), posList x (X ++ b :: Z) = some X.length := by
  intro X
  induction X with
  | nil => intro _ Z; simp [posList, hb]
  | cons a X2 ih =>
    intro hX Z
    have ha : a.id ≠ x := hX a (by simp)
    rw [List.cons_append]
    simp only [posList, ha, if_false]
    rw [ih (fun a2 ha2 => hX a2 (by simp [ha2])) Z]
    rfl

/-- In a list with pairwise-distinct identifiers, no element left of `b`
shares `b`'s identifier. -/
theorem ids_ne_of_nodup (b : Character) :
    ∀ (X Z : List Character), ((X ++ b :: Z).map Character.id).Nodup →
      ∀ a ∈ X, a.id ≠ b.id := by
  intro X
  induction X with
  | nil => intro Z _ a ha; exact absurd ha (List.not_mem_nil a)
  | cons a0 X2 ih =>
    intro Z h a ha
    rw [List.cons_append, List.map_cons, List.nodup_cons] at h
    rcases List.mem_cons.mp ha with rfl | ha2
    · intro hcon
      exact h.1 (hcon ▸ List.mem_map.mpr ⟨b, by simp, rfl⟩)
    · exact ih Z h.2 a ha2

/-- When every between-slice character passes the admission test, the
candidate filter keeps the whole slice. -/
theorem buildL_all (cpid cnid : ID) :
    ∀ (l : List Character), (∀ sc ∈ l, admits cpid cnid sc = true) →
      buildL cpid cnid l = some l := by
  intro l
  induction l with
  | nil => intro _; rfl
  | cons sc rest ih =>
    intro h
    have hsc := h sc (by simp)
    rcases hp : sc.prev_id with _ | pid
    · simp [admits, hp] at hsc
    · rcases hn : sc.next_id with _ | nid
      · simp [admits, hp, hn] at hsc
      · simp only [admits, hp, hn] at hsc
        simp [buildL, hp, hn, ih (fun a ha => h a (by simp [ha])), hsc]

/-- The walk of `integrate_ins` always stops at a pair of consecutive
candidates. -/
theorem walkL_split (c : Character) :
    ∀ (l : List Character) (prev : Character), l ≠ [] →
      ∃ P u v Q, prev :: l = P ++ u :: v :: Q ∧ walkL c prev l = (u, v) := by
  intro l
  induction l with
  | nil => intro prev h; exact absurd rfl h
  | cons cur rest ih =>
    intro prev _
    rcases rest with _ | ⟨next2, rest2⟩
    · exact ⟨[], prev, cur, [], rfl, rfl⟩
    · by_cases hlt : cur.id.less_than c.id = true
      · obtain ⟨P, u, v, Q, hsp, hw⟩ := ih cur (by simp)
        exact ⟨prev :: P, u, v, Q, by rw [List.cons_append, ← hsp],
          by simp [walkL, hlt, hw]⟩
      · exact ⟨[], prev, cur, next2 :: rest2, rfl, by simp [walkL, hlt]⟩

/-- Lists with equal identifier sequences split in parallel around any
consecutive pair. -/
theorem map_id_split :
    ∀ (P : List Character) (u v : Character) (Q l2 : List Character),
      (P ++ u :: v :: Q).map Character.id = l2.map Character.id →
      ∃ P2 u2 v2 Q2, l2 = P2 ++ u2 :: v2 :: Q2 ∧ P2.length = P.length ∧
        u2.id = u.id ∧ v2.id = v.id := by
  intro P
  induction P with
  | nil =>
    intro u v Q l2 h
    rcases l2 with _ | ⟨w, l2a⟩
    · simp at h
    · rcases l2a with _ | ⟨w2, l2b⟩
      · simp at h
      · simp only [List.nil_append, List.map_cons, List.cons.injEq] at h
        exact ⟨[], w, w2, l2b, rfl, rfl, h.1.symm, h.2.1.symm⟩
  | cons p P2 ih =>
    intro u v Q l2 h
    rcases l2 with _ | ⟨w, l2a⟩
    · simp at h
    · simp only [List.cons_append, List.map_cons, List.cons.injEq] at h
      obtain ⟨P3, u2, v2, Q2, hl, hlen, hu, hv⟩ := ih u v Q l2a h.2
      exact ⟨w :: P3, u2, v2, Q2, by rw [hl, List.cons_append], by simp [hlen],
        hu, hv⟩

/-- Two decompositions of one list, ordered by prefix length, nest. -/
theorem append_cons_split :
    ∀ (A : List Character) (bq : Character) (B A2 : List Character)
      (b2 : Character) (T : List Character),
      A ++ bq :: B = A2 ++ b2 :: T → A.length < A2.length →
      ∃ M, A2 = A ++ bq :: M ∧ B = M ++ b2 :: T := by
  intro A
  induction A with
  | nil =>
    intro bq B A2 b2 T heq hlt
    rcases A2 with _ | ⟨a0, A2a⟩
    · simp at hlt
    · simp only [List.nil_append, List.cons_append, List.cons.injEq] at heq
      exact ⟨A2a, by rw [heq.1]; rfl, heq.2⟩
  | cons a A2 ih =>
    intro bq B A3 b2 T heq hlt
    rcases A3 with _ | ⟨a2, A3a⟩
    · simp at hlt
    · simp only [List.cons_append, List.cons.injEq] at heq
      obtain ⟨M, hA2, hB⟩ := ih bq B A3a b2 T heq.2
        (by simp only [List.length_cons] at hlt; omega)
      exact ⟨M, by rw [heq.1, hA2]; rfl, hB⟩

/-- Characterization of a successful `subseq` by the endpoint positions. -/
theorem subseq_spec (s : Sequence) (c d : Character) (i j : Nat)
    (hc : s.pos c = some i) (hd : s.pos d = some j) (hij : i < j) :
    s.subseq c d = Except.ok ⟨(s.chars.drop (i + 1)).take (j - (i + 1))⟩ := by
  simp only [Sequence.subseq, hc, hd]
  rw [if_neg (by omega)]

/-! ### Claim theorems -/

/-- C1: the claim states that two sites integrating the same set of operations
(in any order in which every integration succeeds) end with identical
sequences and identical `text()`.  False: the four insertions
`a=(1,1)` between `CB,CE`, `b=(1,2)` between `CB,a`, `c=(2,1)` between `CB,a`,
`d=(2,2)` between `CB,b` — a permutation of one another — all integrate
successfully in both orders below, yet one site ends with text `"dbca"` and
the other with `"cdba"`. -/
theorem convergence_counterexample :
    List.Perm [opA, opB, opC, opD] [opA, opB, opD, opC] ∧
    textOf (runOps 20 (new_site 1 0) [opA, opB, opC, opD]) = some "dbca" ∧
    textOf (runOps 20 (new_site 2 0) [opA, opB, opD, opC]) = some "cdba" ∧
    textOf (runOps 20 (new_site 1 0) [opA, opB, opC, opD]) ≠
      textOf (runOps 20 (new_site 2 0) [opA, opB, opD, opC]) :=
  ⟨List.Perm.cons opA (List.Perm.cons opB (List.Perm.swap opD opC [])),
   by decide, by decide, by decide⟩

/-- C2: the claim states `less_than_or_equal` is the weak lexicographic order
on `(ns, ng)`.  False at `a = (0,1)`, `b = (0,0)`: the source comparator
returns `true` (its first disjunct `a.ns ≤ b.ns` already fires) while the
lexicographic order gives `false` since `a.ng > b.ng`. -/
theorem less_than_or_equal_not_lexicographic :
    ID.less_than_or_equal ⟨0, 1⟩ ⟨0, 0⟩ = true ∧
    ID.lexLeqSpec ⟨0, 1⟩ ⟨0, 0⟩ = false := by
  decide

/-- C3: the claim states re-applying an operation is a no-op; in particular a
second `integrate_ins` of a character whose id is already present must leave
the sequence unchanged.  False: `integrate_ins` never tests for presence, so
re-integrating the operation carrying `a = (1,1)` inserts a duplicate and the
text grows from `"a"` to `"aa"`. -/
theorem integrate_ins_not_idempotent :
    textOf (runOps 20 (new_site 9 0) [opA]) = some "a" ∧
    textOf (runOps 20 (new_site 9 0) [opA, opA]) = some "aa" := by
  decide

/-- C4: the claim states `integrate_ins c cp cn` terminates for every
sequence in which `cp` and `cn` are both present with `cp` before `cn`.
False: in `[CB, xBad, CE]` the sentinels are present in order and the
between-slice `[xBad]` is nonempty, but the admission test rejects `xBad`
(its `prev_id.ns = 5` is not `≤ CB.id.ns`), so the candidate list collapses
to `[CB, CE]` and the recursion repeats the identical call: every fuel bound
is exhausted, the between-slice never narrows. -/
theorem integrate_ins_nontermination :
    loopsForever stBad cNew CB CE ∧
    stBad.seq.pos CB = some 0 ∧ stBad.seq.pos CE = some 2 := by
  refine ⟨?_, by decide, by decide⟩
  intro fuel
  induction fuel with
  | zero => rfl
  | succ n ih =>
    have hstep : Site.integrate_ins (n + 1) stBad cNew CB CE =
        Site.integrate_ins n stBad cNew CB CE := rfl
    rw [hstep, ih]

/-- C4 (amended): `integrate_ins c cp cn` reaches the empty-slice base case
and terminates whenever the sequence has pairwise distinct identifiers, `cp`
and `cn` are present with `cp` strictly before `cn`, and every character of
the between-slice passes the admission test
`prev_id ≤ cp.id && cn.id ≤ next_id` (source comparator): the candidate list
then contains the whole slice, consecutive candidates are physically
adjacent, at most one recursive call happens, and fuel 2 — or any larger
fuel — suffices.  When the nonempty between-slice is entirely rejected the
recursion instead repeats the identical call and never terminates. -/
theorem integrate_ins_terminates_of_admitted
    (st : Site) (c cp cn : Character) (i j : Nat)
    (hnodup : (st.seq.chars.map Character.id).Nodup)
    (hcp : st.seq.pos cp = some i) (hcn : st.seq.pos cn = some j) (hij : i < j)
    (hadm : ∀ sc ∈ (st.seq.chars.drop (i + 1)).take (j - (i + 1)),
      admits cp.id cn.id sc = true) :
    ∀ fuel, ∃ r, Site.integrate_ins (fuel + 2) st c cp cn = Except.ok r := by
  intro fuel
  obtain ⟨A, cpc, B, hchars1, hA, hcpc⟩ := posList_decomp cp.id st.seq.chars i hcp
  obtain ⟨A2, cnc, T, hchars2, hA2, hcnc⟩ := posList_decomp cn.id st.seq.chars j hcn
  obtain ⟨M, hA2eq, hBeq⟩ :=
    append_cons_split A cpc B A2 cnc T (hchars1.symm.trans hchars2) (by omega)
  have hMlen : M.length = j - (i + 1) := by
    have hlen := congrArg List.length hA2eq
    simp only [List.length_append, List.length_cons] at hlen
    omega
  have hchars : st.seq.chars = A ++ cpc :: (M ++ cnc :: T) := by
    rw [hchars1, hBeq]
  have hdrop : st.seq.chars.drop (i + 1) = M ++ cnc :: T := by
    have h1 : st.seq.chars = (A ++ [cpc]) ++ (M ++ cnc :: T) := by
      rw [hchars]
      simp
    have h2 : (A ++ [cpc]).length = i + 1 := by
      simp [hA]
    rw [h1, ← h2, List.drop_left]
  have hslice : (st.seq.chars.drop (i + 1)).take (j - (i + 1)) = M := by
    rw [hdrop, ← hMlen, List.take_left]
  rw [hslice] at hadm
  have hjlen : j < st.seq.chars.length := posList_lt_length cn.id _ j hcn
  have hsub : st.seq.subseq cp cn = Except.ok ⟨M⟩ := by
    rw [subseq_spec st.seq cp cn i j hcp hcn hij, hslice]
  have hstep0 : fuel + 2 = (fuel + 1) + 1 := rfl
  rcases M with _ | ⟨m0, Mrest⟩
  · -- empty between-slice: the base case inserts right away
    have hins : st.seq.insert2 c j =
        Except.ok ⟨st.seq.chars.take j ++ c :: st.seq.chars.drop j⟩ := by
      unfold Sequence.insert2
      rw [if_pos hjlen]
    refine ⟨({ st with seq := ⟨st.seq.chars.take j ++ c :: st.seq.chars.drop j⟩ },
      ⟨"INS", c, some cp, some cn⟩), ?_⟩
    rw [hstep0, Site.integrate_ins]
    simp only [hcn, hsub, hins, List.length_nil]
    rfl
  · -- nonempty slice, all admitted: one recursive step on adjacent candidates
    have hbuild : buildL cp.id cn.id (m0 :: Mrest) = some (m0 :: Mrest) :=
      buildL_all cp.id cn.id _ hadm
    obtain ⟨P, u, v, Q, hsplit, hwalk⟩ :=
      walkL_split c ((m0 :: Mrest) ++ [cn]) cp (by simp)
    have hmapid : (cp :: ((m0 :: Mrest) ++ [cn])).map Character.id =
        (cpc :: ((m0 :: Mrest) ++ [cnc])).map Character.id := by
      simp [hcpc, hcnc]
    obtain ⟨P2, u2, v2, Q2, hsplit2, hlen2, hu2, hv2⟩ :=
      map_id_split P u v Q (cpc :: ((m0 :: Mrest) ++ [cnc]))
        (by rw [← hsplit]; exact hmapid)
    have hchars3 : st.seq.chars = (A ++ P2) ++ u2 :: v2 :: (Q2 ++ T) := by
      rw [hchars]
      have hx : cpc :: ((m0 :: Mrest) ++ cnc :: T) =
          (cpc :: ((m0 :: Mrest) ++ [cnc])) ++ T := by
        simp
      rw [hx, hsplit2]
      simp [List.append_assoc]
    have hnodup2 := hnodup
    rw [hchars3] at hnodup2
    have hndA : ∀ a ∈ A ++ P2, a.id ≠ u2.id :=
      ids_ne_of_nodup u2 (A ++ P2) (v2 :: (Q2 ++ T)) hnodup2
    have hposu : st.seq.pos u = some (A.length + P2.length) := by
      unfold Sequence.pos
      rw [← hu2, hchars3,
        posList_append u2.id u2 rfl (A ++ P2) hndA (v2 :: (Q2 ++ T))]
      simp
    have hchars4 : st.seq.chars = ((A ++ P2) ++ [u2]) ++ v2 :: (Q2 ++ T) := by
      rw [hchars3]
      simp
    have hnodup3 := hnodup
    rw [hchars4] at hnodup3
    have hndB : ∀ a ∈ (A ++ P2) ++ [u2], a.id ≠ v2.id :=
      ids_ne_of_nodup v2 ((A ++ P2) ++ [u2]) (Q2 ++ T) hnodup3
    have hposv : st.seq.pos v = some (A.length + P2.length + 1) := by
      unfold Sequence.pos
      rw [← hv2, hchars4,
        posList_append v2.id v2 rfl ((A ++ P2) ++ [u2]) hndB (Q2 ++ T)]
      simp only [List.length_append, List.length_cons, List.length_nil,
        Option.some.injEq]
    have hsubuv : st.seq.subseq u v = Except.ok ⟨[]⟩ := by
      rw [subseq_spec st.seq u v (A.length + P2.length) (A.length + P2.length + 1)
        hposu hposv (by omega)]
      simp
    have hvlen : A.length + P2.length + 1 < st.seq.chars.length := by
      rw [hchars3]
      simp only [List.length_append, List.length_cons]
      omega
    have hins2 : st.seq.insert2 c (A.length + P2.length + 1) =
        Except.ok ⟨st.seq.chars.take (A.length + P2.length + 1) ++
          c :: st.seq.chars.drop (A.length + P2.length + 1)⟩ := by
      unfold Sequence.insert2
      rw [if_pos hvlen]
    have hMne : ((m0 :: Mrest).length == 0) = false := by
      simp
    refine ⟨({ st with seq := ⟨st.seq.chars.take (A.length + P2.length + 1) ++
        c :: st.seq.chars.drop (A.length + P2.length + 1)⟩ },
      ⟨"INS", c, some u, some v⟩), ?_⟩
    rw [hstep0, Site.integrate_ins]
    simp only [hcn, hsub, hMne, Bool.false_eq_true, if_false, hbuild, hwalk]
    rw [Site.integrate_ins]
    simp only [hposv, hsubuv, hins2, List.length_nil]
    rfl

/-- Witness for C4 (amended) at a concrete input: in `stW` the sentinels are
present in order, identifiers are pairwise distinct, the whole between-slice
`[chA]` is admitted, and `integrate_ins` with fuel 2 succeeds. -/
theorem integrate_ins_terminates_witness :
    ((stW.seq.chars.map Character.id).Nodup ∧
      stW.seq.pos CB = some 0 ∧ stW.seq.pos CE = some 2) ∧
    ∃ r, Site.integrate_ins (0 + 2) stW cNew CB CE = Except.ok r :=
  ⟨⟨by decide, by decide, by decide⟩,
   integrate_ins_terminates_of_admitted stW cNew CB CE 0 2 (by decide)
     (by decide) (by decide) (by decide) (by decide) 0⟩

/-- C5: the claim states `CE_ID = (MAX_INT, 0)`.  False: the source sets
`ng = 1` in `CE_ID`, so `CE.id.ng ≠ 0`. -/
theorem ce_id_ng_ne_zero : CE.id = CE_ID ∧ CE_ID.ng ≠ 0 := by
  decide

/-- C5 (amended): the ending sentinel identifier is `CE_ID = (MAX_INT, 1)`:
`ns` is the maximum signed 64-bit integer and `ng` is `1`. -/
theorem ce_id_is_max_one :
    CE_ID = ⟨i64_max, 1⟩ ∧ CE.id.ns = 2 ^ 63 - 1 ∧ CE.id.ng = 1 := by
  decide

/-- C6: the claim states the clock is strictly greater after every
`generate_ins` call and every `generate_del` call.  False for `generate_del`:
on the site `stW` (clock 3, text `"a"`) the call `generate_del 1` succeeds and
the clock is still 3, not strictly greater. -/
theorem generate_del_clock_counterexample :
    clockOf (Site.generate_del stW 1) = some 3 ∧ ¬ (stW.clock < 3) := by
  decide

/-- C6 (amended): the clock is strictly greater after every `generate_ins`
call (it is incremented exactly once, before anything else); `generate_del`
never changes the clock. -/
theorem clock_after_generation (fuel : Nat) (st : Site) (p : Nat) (ch : String) :
    (∀ st2 op2, Site.generate_ins fuel st p ch = Except.ok (st2, op2) →
      st.clock < st2.clock) ∧
    (∀ st2 op2, Site.generate_del st p = Except.ok (st2, op2) →
      st2.clock = st.clock) := by
  constructor
  · intro st2 op2 h
    unfold Site.generate_ins at h
    split at h
    · exact absurd h (by simp)
    · have h2 := integrate_ins_clock_eq fuel _ _ _ _ (st2, op2) h
      simp only at h2
      omega
  · intro st2 op2 h
    unfold Site.generate_del at h
    split at h
    · exact absurd h (by simp)
    · exact integrate_del_clock_eq st _ (st2, op2) h

/-- The site resulting from `generate_ins 1 "b"` at `stW`. -/
def cB4 : Character := ⟨⟨1, 4⟩, "b", true, some CB_ID, some chA.id⟩

/-- `stW` after inserting `cB4` at visible position 1. -/
def stWins : Site := ⟨1, 4, ⟨[CB, cB4, chA, CE]⟩⟩

/-- `stW` after deleting its only visible character. -/
def stWdel : Site := ⟨1, 3, ⟨[CB, { chA with visible := false }, CE]⟩⟩

/-- Witness for C6 (amended) at a concrete input: both generators succeed on
`stW`; the insert raises the clock from 3 to 4, the delete keeps it at 3. -/
theorem clock_after_generation_witness :
    stW.clock < stWins.clock ∧ stWdel.clock = stW.clock :=
  ⟨(clock_after_generation 5 stW 1 "b").1 stWins ⟨"INS", cB4, some CB, some chA⟩
      rfl,
   (clock_after_generation 5 stW 1 "b").2 stWdel ⟨"DEL", chA, none, none⟩
      rfl⟩

/-- C7: whenever the `p`-th visible character is absent, `generate_del p`
fails with `TargetNotFound`; in particular `generate_del 0` fails on every
sequence (`ith_visible 0` is always `none`).  The failing branch returns
before any state update, so the sequence is unchanged by construction. -/
theorem generate_del_absent_target (st : Site) (p : Nat) :
    (st.seq.ith_visible p = none →
      Site.generate_del st p = Except.error WErr.targetNotFound) ∧
    Site.generate_del st 0 = Except.error WErr.targetNotFound := by
  constructor
  · intro h
    simp [Site.generate_del, h]
  · simp [Site.generate_del, Sequence.ith_visible]

/-- Witness for C7 at a concrete input: the fresh sequence has no 5th visible
character and `generate_del 5` fails with `TargetNotFound`. -/
theorem generate_del_absent_target_witness :
    Sequence.ith_visible (new_site 1 0).seq 5 = none ∧
    Site.generate_del (new_site 1 0) 5 = Except.error WErr.targetNotFound :=
  ⟨by decide, (generate_del_absent_target (new_site 1 0) 5).1 (by decide)⟩

/-- C8: from a fresh site with clock 0, the call sequence
`generate_ins(1,"a"); generate_ins(2,"b"); generate_ins(1,"b");
generate_ins(3,"c")` succeeds and leaves `text()` equal to `"bacb"`. -/
theorem single_site_scenario_text : textOf genChain = some "bacb" := by
  decide

/-- C9: `generate_ins p ch` hits the `usize` underflow `p - 1` exactly when
`p = 0` (after the clock increment, before anything else); for `p ≥ 1` the
underflow branch is unreachable — no other program point of the call can
produce it. -/
theorem generate_ins_underflow_only_at_zero (fuel : Nat) (st : Site) (p : Nat)
    (ch : String) :
    (p = 0 → Site.generate_ins fuel st p ch = Except.error WErr.underflowGenIns) ∧
    (1 ≤ p → Site.generate_ins fuel st p ch ≠ Except.error WErr.underflowGenIns) := by
  constructor
  · intro h
    subst h
    simp [Site.generate_ins]
  · intro h
    have hne : (p == 0) = false := beq_eq_false_iff_ne.mpr (by omega)
    simp only [Site.generate_ins, hne, Bool.false_eq_true, if_false]
    exact integrate_ins_ne_underflowGenIns _ _ _ _ _

/-- Witness for C9 at concrete inputs: on a fresh site, `p = 0` panics with
the underflow and `p = 1` does not. -/
theorem generate_ins_underflow_witness :
    Site.generate_ins 5 (new_site 1 0) 0 "a" = Except.error WErr.underflowGenIns ∧
    Site.generate_ins 5 (new_site 1 0) 1 "a" ≠ Except.error WErr.underflowGenIns :=
  ⟨(generate_ins_underflow_only_at_zero 5 (new_site 1 0) 0 "a").1 rfl,
   (generate_ins_underflow_only_at_zero 5 (new_site 1 0) 1 "a").2 (by decide)⟩

/-- C10: `subseq c d` is total only when `c` occurs strictly before `d`: with
both present at indices `i`, `j`, the call panics by `usize` underflow (in the
second `split_off`) exactly when `j ≤ i`, and returns the strict
between-slice when `i < j`. -/
theorem subseq_underflow_when_misordered (s : Sequence) (c d : Character)
    (i j : Nat) (hc : s.pos c = some i) (hd : s.pos d = some j) :
    (j ≤ i → s.subseq c d = Except.error WErr.underflowSubseq) ∧
    (i < j →
      s.subseq c d = Except.ok ⟨(s.chars.drop (i + 1)).take (j - (i + 1))⟩) := by
  constructor
  · intro h
    simp only [Sequence.subseq, hc, hd]
    rw [if_pos (by omega)]
  · intro h
    simp only [Sequence.subseq, hc, hd]
    rw [if_neg (by omega)]

/-- C10 witness at a concrete input: in `[CB, CE]`, `CE` sits at index 1 and
`CB` at index 0, and `subseq CE CB` hits the underflow panic. -/
theorem subseq_underflow_witness :
    Sequence.pos (new_sequence 1 "") CE = some 1 ∧
    Sequence.subseq (new_sequence 1 "") CE CB = Except.error WErr.underflowSubseq :=
  ⟨by decide,
   (subseq_underflow_when_misordered (new_sequence 1 "") CE CB 1 0
     (by decide) (by decide)).1 (by decide)⟩

end Woot
